import Mathlib

/-!
Shallow embedding of the core game logic of the "Mom's Mahjong" tile-matching
game (sources: `src/game/Tile.ts`, `src/game/Board.ts`, the `GameScene` part of
`src/game/layouts.ts`).

Conventions of the embedding:
* A board tile (`Tile`) carries its grid data (`TileData`: integer column, row,
  layer and the tile kind `tileType`) together with the mutable flags `isFree`
  and `isRemoved` of the source's `Tile` class.  The `id` field models object
  identity (in the source, tiles are distinct objects held in the `tiles`
  array; reference equality `===` is modelled by `id` equality, and every real
  board has pairwise distinct ids).
* The hold area (`HoldArea.slots`) is a list of `Option Nat`: `some k` is a
  slot holding a tile of kind `k`, `none` an empty slot.  The real hold has
  exactly 4 slots; the list length is kept abstract where the code does not
  depend on it.
* `Math.random()`-driven draws (Fisher–Yates in `generateTileTypesForPairs`
  and `shuffle`) are modelled by an oracle `r : Nat → Nat`; the source draws
  `j = Math.floor(Math.random() * (i + 1)) ∈ [0, i]`, which is modelled as
  `r i % (i + 1)`.
* Coordinates come from the integer layout table, so the source's float tests
  `|a - b| < 1` and `|a - b| < 0.1` are embedded as `(a - b).natAbs < 1` and
  exact equality respectively, over `Int`.
* Animations, sounds, tweens and rendering are presentation-only and are not
  part of the state; `await`ed animation steps resolve deterministically, so a
  whole turn is one function.
-/

namespace MomsMahjong

/-- `TileData` from `src/game/Tile.ts` (the `emoji` field is a pure render
function of `tileType` via the `TILE_EMOJIS` palette and is omitted). -/
structure TileData where
  col : Int
  row : Int
  layer : Int
  tileType : Nat
  deriving Repr, DecidableEq

/-- The `Tile` game object: its data plus the `isFree` / `isRemoved` flags.
`id` models object identity of the tile within the board's `tiles` array. -/
structure Tile where
  id : Nat
  data : TileData
  isFree : Bool
  isRemoved : Bool
  deriving Repr, DecidableEq

/-- `Board.checkTileFree` (`src/game/Board.ts` lines 206-247).
Rule 1: blocked if some other active tile sits at a strictly higher layer with
`|colDiff| < 1` and `|rowDiff| < 1`.  Rule 2: blocked if both the left
(`|od.col - (col-1)| < 0.1`, exact on integers) and the right neighbour on the
same layer and row exist.  The `other === tile` skip is `other.id != tile.id`. -/
def checkTileFree (tile : Tile) (activeTiles : List Tile) : Bool :=
  if activeTiles.any (fun other =>
      (other.id != tile.id) &&
      decide (tile.data.layer < other.data.layer) &&
      decide ((other.data.col - tile.data.col).natAbs < 1) &&
      decide ((other.data.row - tile.data.row).natAbs < 1)) then
    false
  else
    let leftBlocked := activeTiles.any (fun other =>
      (other.id != tile.id) &&
      decide (other.data.layer = tile.data.layer) &&
      decide ((other.data.row - tile.data.row).natAbs < 1) &&
      decide (other.data.col = tile.data.col - 1))
    let rightBlocked := activeTiles.any (fun other =>
      (other.id != tile.id) &&
      decide (other.data.layer = tile.data.layer) &&
      decide ((other.data.row - tile.data.row).natAbs < 1) &&
      decide (other.data.col = tile.data.col + 1))
    !leftBlocked || !rightBlocked

/-- `Board.updateFreeTiles`: recompute the free flag of every active tile
against the current list of active tiles; removed tiles are untouched. -/
def updateFreeTiles (tiles : List Tile) : List Tile :=
  let activeTiles := tiles.filter (fun t => !t.isRemoved)
  tiles.map (fun t =>
    if t.isRemoved then t else { t with isFree := checkTileFree t activeTiles })

/-- The state mutation of `Tile.removeWithAnimation`: flip `isRemoved`. -/
def markRemoved (tiles : List Tile) (tid : Nat) : List Tile :=
  tiles.map (fun t => if t.id == tid then { t with isRemoved := true } else t)

/-- `Board.removeTile` (lines 185-195): mark the tile removed and recompute
free states.  (The `onWin` callback it may fire is modelled at the
`GameScene` level, in `onTileSelected`.) -/
def removeTile (tiles : List Tile) (tid : Nat) : List Tile :=
  updateFreeTiles (markRemoved tiles tid)

/-- `Board.getRemainingTiles`. -/
def getRemainingTiles (tiles : List Tile) : List Tile :=
  tiles.filter (fun t => !t.isRemoved)

/-- `Board.getRemainingCount`. -/
def getRemainingCount (tiles : List Tile) : Nat :=
  (getRemainingTiles tiles).length

/-- `Board.getFreeTiles`. -/
def getFreeTiles (tiles : List Tile) : List Tile :=
  tiles.filter (fun t => !t.isRemoved && t.isFree)

/-- The kinds of the active tiles in board iteration order. -/
def activeKinds (tiles : List Tile) : List Nat :=
  (tiles.filter (fun t => !t.isRemoved)).map (fun t => t.data.tileType)

/-- Number of non-removed board tiles of kind `k`. -/
def countKindBoard (k : Nat) (tiles : List Tile) : Nat :=
  (activeKinds tiles).count k

/-- `Board.findHintTile` (lines 261-299): three priority passes over the free
tiles, each returning the first hit; the hold counts map is modelled as a
total function (`holdTypeCounts.get(t) || 0`). -/
def findHintTile (tiles : List Tile) (holdTypeCounts : Nat → Nat) : Option Tile :=
  let freeTiles := getFreeTiles tiles
  let remainingTiles := getRemainingTiles tiles
  match freeTiles.find? (fun t => decide (1 ≤ holdTypeCounts t.data.tileType)) with
  | some t => some t
  | none =>
    match freeTiles.find? (fun t =>
        freeTiles.any (fun o => (o.id != t.id) && (o.data.tileType == t.data.tileType))) with
    | some t => some t
    | none =>
      freeTiles.find? (fun t =>
        decide (2 ≤ (remainingTiles.filter
          (fun o => o.data.tileType == t.data.tileType)).length))

/-- Hold-area slots (`HoldArea.slots`): `some k` = occupied by kind `k`. -/
abbrev HoldSlots := List (Option Nat)

/-- `HoldArea.getTileCount`. -/
def holdTileCount (slots : HoldSlots) : Nat :=
  slots.countP (fun s => s.isSome)

/-- `HoldArea.canAddTile`: some slot is empty. -/
def canAddTile (slots : HoldSlots) : Bool :=
  slots.any (fun s => s.isNone)

/-- The kinds held in the occupied slots, in slot order. -/
def kindsOf (slots : HoldSlots) : List Nat :=
  slots.filterMap id

/-- Clear the first slot holding kind `k` (one step of removing
`matchingSlots.slice(0, 2)` in `HoldArea.handleMatch`). -/
def clearFirst : HoldSlots → Nat → HoldSlots
  | [], _ => []
  | s :: rest, k => if s = some k then none :: rest else s :: clearFirst rest k

/-- `HoldArea.compactSlots` (lines 456-489): collect the remaining tiles in
slot order and reassign them to the leftmost slots; later slots stay empty. -/
def compactSlots (slots : HoldSlots) : HoldSlots :=
  let tiles := kindsOf slots
  tiles.map some ++ List.replicate (slots.length - tiles.length) none

/-- `HoldArea.handleMatch` (lines 427-454): empty the first two slots holding
the matched kind, then compact.  (The `onMatch` callback is modelled at the
`GameScene` level.) -/
def handleMatch (slots : HoldSlots) (k : Nat) : HoldSlots :=
  compactSlots (clearFirst (clearFirst slots k) k)

/-- The insertion step of `HoldArea.addTile`: place kind `k` in the first
empty slot (no change when every slot is occupied). -/
def insertTile (slots : HoldSlots) (k : Nat) : HoldSlots :=
  match slots.findIdx? (fun s => s.isNone) with
  | none => slots
  | some i => slots.set i (some k)

/-- The game-over test of `HoldArea.addTile` (lines 408-422): some kind
occurs at least twice among the occupied slots. -/
def hasPairB (slots : HoldSlots) : Bool :=
  slots.any (fun s =>
    match s with
    | some t => decide (2 ≤ slots.countP (fun o => o = some t))
    | none => false)

/-- Result of `HoldArea.addTile`: the new slots, the returned `matched` flag,
and whether the `onGameOver` callback fired. -/
structure AddResult where
  slots : HoldSlots
  matched : Bool
  gameOver : Bool
  deriving Repr, DecidableEq

/-- `HoldArea.addTile` (lines 350-425): find the first empty slot (reject if
none), place the tile, fire a match when the inserted kind now occurs at
least twice, otherwise fire `onGameOver` when the hold is full with no pair. -/
def addTile (slots : HoldSlots) (k : Nat) : AddResult :=
  match slots.findIdx? (fun s => s.isNone) with
  | none => ⟨slots, false, false⟩
  | some i =>
    let slots1 := slots.set i (some k)
    if 2 ≤ slots1.countP (fun s => s = some k) then
      ⟨handleMatch slots1 k, true, false⟩
    else
      ⟨slots1, false, !(canAddTile slots1) && !(hasPairB slots1)⟩

/-- Helper predicate: every slot of the list is empty. -/
def allNone (slots : HoldSlots) : Bool :=
  slots.all (fun s => s.isNone)

/-- The hold compaction invariant: the occupied slots form a contiguous
block starting at slot 0 (once an empty slot appears, all later slots are
empty). -/
def isCompactB : HoldSlots → Bool
  | [] => true
  | some _ :: rest => isCompactB rest
  | none :: rest => allNone rest

/-- Each kind occurs at most once among the occupied hold slots. -/
def eachKindAtMostOnce (slots : HoldSlots) : Bool :=
  (kindsOf slots).all (fun t => decide ((kindsOf slots).count t ≤ 1))

/-- One Fisher–Yates swap `[types[i], types[j]] = [types[j], types[i]]`. -/
def swapAt (l : List Nat) (i j : Nat) : List Nat :=
  (l.set i (l.getD j 0)).set j (l.getD i 0)

/-- The Fisher–Yates loop `for (let i = len - 1; i > 0; i--)` with the draw
`j = Math.floor(Math.random() * (i + 1))` modelled as `r i % (i + 1)`. -/
def fyLoop (r : Nat → Nat) : Nat → List Nat → List Nat
  | 0, l => l
  | i + 1, l => fyLoop r i (swapAt l (i + 1) (r (i + 1) % (i + 2)))

/-- Full Fisher–Yates pass over a list, as used in both
`Board.generateTileTypesForPairs` and `Board.shuffle`. -/
def fisherYates (l : List Nat) (r : Nat → Nat) : List Nat :=
  fyLoop r (l.length - 1) l

/-- The pre-shuffle kind list of `Board.generateTileTypesForPairs` (lines
147-159): `pairCount = ⌊count/2⌋` pairs cycling through the palette, then
pad with kind 0 up to `count`. -/
def baseTypes (count paletteSize : Nat) : List Nat :=
  let pairCount := count / 2
  let pairs := (List.range pairCount).flatMap
    (fun i => [i % paletteSize, i % paletteSize])
  pairs ++ List.replicate (count - pairs.length) 0

/-- `Board.generateTileTypesForPairs` (lines 147-167). -/
def generateTileTypesForPairs (count paletteSize : Nat) (r : Nat → Nat) : List Nat :=
  fisherYates (baseTypes count paletteSize) r

/-- The reassignment loop of `Board.shuffle`: give the `i`-th active tile the
`i`-th kind of the shuffled kind list (positions and removed flags are
untouched). -/
def assignTypes : List Tile → List Nat → List Tile
  | [], _ => []
  | t :: ts, ks =>
    if t.isRemoved then t :: assignTypes ts ks
    else
      match ks with
      | [] => t :: assignTypes ts []
      | k :: ks2 =>
        { t with data := { t.data with tileType := k } } :: assignTypes ts ks2

/-- `Board.shuffle` (lines 305-333): permute the kinds of the active tiles
and recompute free states. -/
def shuffle (tiles : List Tile) (r : Nat → Nat) : List Tile :=
  let types := (tiles.filter (fun t => !t.isRemoved)).map (fun t => t.data.tileType)
  updateFreeTiles (assignTypes tiles (fisherYates types r))

/-- `GameScene` session state (`src/game/layouts.ts`): board tiles, hold
slots, score bookkeeping and the `overlayVisible` flag that marks the
terminal Won/Lost overlay. -/
structure GameState where
  tiles : List Tile
  hold : HoldSlots
  score : Nat
  highScore : Nat
  comboCount : Nat
  lastMatchTime : Int
  overlayVisible : Bool
  deriving Repr, DecidableEq

/-- `COMBO_TIME_WINDOW` (layouts.ts line 157). -/
def COMBO_TIME_WINDOW : Int := 3000

/-- `GameScene.onHoldMatch` (lines 397-432): combo update, scoring, and the
monotone high-score update.  `now` is the `Date.now()` timestamp. -/
def onHoldMatch (s : GameState) (now : Int) : GameState :=
  let combo := if now - s.lastMatchTime < COMBO_TIME_WINDOW then s.comboCount + 1 else 1
  let points := 100 * combo
  let newScore := s.score + points
  let newHigh := if s.highScore < newScore then newScore else s.highScore
  { s with comboCount := combo, lastMatchTime := now,
           score := newScore, highScore := newHigh }

/-- Read a tile's kind by id (the selected tile's `tileData.tileType`). -/
def tileTypeOf (tiles : List Tile) (tid : Nat) : Nat :=
  match tiles.find? (fun t => t.id == tid) with
  | some t => t.data.tileType
  | none => 0

/-- `GameScene.onTileSelected` (lines 355-389), one completed turn.  Returns
the new state and whether the win screen was signalled.  The turn:
guard on `overlayVisible`, guard on the hold having room, remove the tile
from the board (`Board.removeTile` fires `onWin` when the board empties, and
`GameScene.onWin` shows the win screen only if the hold is empty at that
moment, i.e. before the hold insertion), insert into the hold (possibly
matching, which scores, or firing `onGameOver`), then the final check
`boardEmpty && holdEmpty`.  (`isProcessing` is set and cleared within the
call, with no net effect on a completed turn.) -/
def onTileSelected (s : GameState) (tid : Nat) (now : Int) : GameState × Bool :=
  if s.overlayVisible then (s, false)
  else if !(canAddTile s.hold) then (s, false)
  else
    let k := tileTypeOf s.tiles tid
    let tiles2 := removeTile s.tiles tid
    let earlyWin := (getRemainingCount tiles2 == 0) && (holdTileCount s.hold == 0)
    let r := addTile s.hold k
    let s1 := { s with tiles := tiles2, hold := r.slots }
    let s2 := if r.matched then onHoldMatch s1 now else s1
    let s3 := if r.gameOver then { s2 with overlayVisible := true } else s2
    let finalWin := (getRemainingCount tiles2 == 0) && (holdTileCount r.slots == 0)
    let win := earlyWin || finalWin
    (if win then { s3 with overlayVisible := true } else s3, win)

/-- `GameScene.shuffleBoard` (lines 497-500): shuffles the board
unconditionally — note the absence of any `overlayVisible` guard. -/
def shuffleBoard (s : GameState) (r : Nat → Nat) : GameState :=
  { s with tiles := shuffle s.tiles r }

/-! ## Concrete states used by counterexamples and witnesses -/

/-- A fresh two-tile board: both tiles of kind 0, side by side with a gap,
both free, none removed. -/
def pairBoard : List Tile :=
  [⟨0, ⟨0, 0, 0, 0⟩, true, false⟩, ⟨1, ⟨2, 0, 0, 0⟩, true, false⟩]

/-- A lost session: hold full with four distinct kinds, two tiles of distinct
kinds still on the board, terminal overlay shown. -/
def lostState : GameState :=
  { tiles := [⟨0, ⟨0, 0, 0, 0⟩, true, false⟩, ⟨1, ⟨2, 0, 0, 1⟩, true, false⟩]
    hold := [some 2, some 3, some 4, some 5]
    score := 0, highScore := 0, comboCount := 0, lastMatchTime := 0
    overlayVisible := true }

/-- A mid-game session: one tile of kind 0 on the board, one kind-0 tile in
the hold, no overlay.  Selecting the board tile completes the game. -/
def lastTileState : GameState :=
  { tiles := [⟨0, ⟨0, 0, 0, 0⟩, true, false⟩]
    hold := [some 0, none, none, none]
    score := 0, highScore := 0, comboCount := 0, lastMatchTime := 0
    overlayVisible := false }

/-! ## List counting lemmas for the Fisher–Yates permutation -/

/-- Setting index `j` trades the old entry for the new one in the count. -/
theorem count_set_add (xs : List Nat) (j x a : Nat) (hj : j < xs.length) :
    (xs.set j x).count a + (if xs.getD j 0 = a then 1 else 0)
      = xs.count a + (if x = a then 1 else 0) := by
  induction xs generalizing j with
  | nil => simp at hj
  | cons y ys ih =>
    cases j with
    | zero =>
      simp only [List.set_cons_zero, List.getD_cons_zero, List.count_cons, beq_iff_eq]
      split_ifs <;> omega
    | succ j =>
      have hj' : j < ys.length := by simpa using hj
      have h := ih j hj'
      simp only [List.set_cons_succ, List.getD_cons_succ, List.count_cons, beq_iff_eq]
      split_ifs at h ⊢ <;> omega

/-- Setting index `i` to some value does not change what index `j` reads when
the value set is exactly the entry at `j` (covers both `i = j` and `i ≠ j`). -/
theorem getD_set_getD (l : List Nat) (i j : Nat) (hj : j < l.length) :
    (l.set i (l.getD j 0)).getD j 0 = l.getD j 0 := by
  induction l generalizing i j with
  | nil => simp at hj
  | cons y ys ih =>
    cases i with
    | zero => cases j <;> simp
    | succ i =>
      cases j with
      | zero => simp
      | succ j =>
        have hj' : j < ys.length := by simpa using hj
        simpa using ih i j hj'

/-- An in-bounds swap preserves every element count. -/
theorem count_swapAt (l : List Nat) (i j a : Nat) (hi : i < l.length) (hj : j < l.length) :
    (swapAt l i j).count a = l.count a := by
  have h1 := count_set_add l i (l.getD j 0) a hi
  have h2 := count_set_add (l.set i (l.getD j 0)) j (l.getD i 0) a (by simpa using hj)
  rw [getD_set_getD l i j hj] at h2
  show ((l.set i (l.getD j 0)).set j (l.getD i 0)).count a = l.count a
  split_ifs at h1 h2 <;> omega

theorem length_swapAt (l : List Nat) (i j : Nat) : (swapAt l i j).length = l.length := by
  simp [swapAt]

theorem length_fyLoop (r : Nat → Nat) (i : Nat) :
    ∀ l : List Nat, (fyLoop r i l).length = l.length := by
  induction i with
  | zero => intro l; rfl
  | succ i ih => intro l; rw [fyLoop, ih, length_swapAt]

theorem count_fyLoop (r : Nat → Nat) (a : Nat) (i : Nat) :
    ∀ l : List Nat, i < l.length → (fyLoop r i l).count a = l.count a := by
  induction i with
  | zero => intro l _; rfl
  | succ i ih =>
    intro l hl
    have hj : r (i + 1) % (i + 2) < l.length := by
      have := Nat.mod_lt (r (i + 1)) (y := i + 2) (by omega)
      omega
    rw [fyLoop, ih _ (by rw [length_swapAt]; omega), count_swapAt l (i + 1) _ a hl hj]

/-- The Fisher–Yates pass is a permutation: every count is preserved. -/
theorem count_fisherYates (l : List Nat) (r : Nat → Nat) (a : Nat) :
    (fisherYates l r).count a = l.count a := by
  cases l with
  | nil => rfl
  | cons x xs => exact count_fyLoop r a _ _ (by simp)

theorem length_fisherYates (l : List Nat) (r : Nat → Nat) :
    (fisherYates l r).length = l.length :=
  length_fyLoop r _ l

/-! ## Lemmas about the pre-shuffle kind list -/

theorem length_pairlist (f : Nat → Nat) (l : List Nat) :
    (l.flatMap (fun i => [f i, f i])).length = 2 * l.length := by
  induction l with
  | nil => rfl
  | cons x xs ih => simp [ih]; omega

theorem count_pairlist (f : Nat → Nat) (k : Nat) (l : List Nat) :
    (l.flatMap (fun i => [f i, f i])).count k = 2 * ((l.map f).count k) := by
  induction l with
  | nil => rfl
  | cons x xs ih =>
    simp only [List.flatMap_cons, List.count_append, List.count_cons, List.map_cons,
      List.count_nil, ih, beq_iff_eq]
    split_ifs <;> omega

theorem length_baseTypes (count paletteSize : Nat) :
    (baseTypes count paletteSize).length = count := by
  have h := length_pairlist (fun i => i % paletteSize) (List.range (count / 2))
  simp only [baseTypes, List.length_append, List.length_replicate, h, List.length_range]
  omega

theorem count_baseTypes (count paletteSize k : Nat) :
    (baseTypes count paletteSize).count k
      = 2 * (((List.range (count / 2)).map (fun i => i % paletteSize)).count k)
        + (if (0 : Nat) = k then count - 2 * (count / 2) else 0) := by
  have h := length_pairlist (fun i => i % paletteSize) (List.range (count / 2))
  simp only [baseTypes, List.count_append, count_pairlist, h, List.length_range,
    List.count_replicate, beq_iff_eq]

/-! ## Theorems -/

/-- Claim C5: the tile-kind generation computes `pairCount = ⌊N/2⌋`, emits
`pairCount` pairs cycling through the palette, pads with kind 0 when `N` is
odd, then permutes the list; hence the result has length `N`, has exactly the
kind counts of the pre-shuffle list, and for even `N` every kind occurs an
even number of times. -/
theorem generateTileTypes_pairs_correct (count paletteSize : Nat) (r : Nat → Nat) :
    (generateTileTypesForPairs count paletteSize r).length = count
    ∧ (∀ k, (generateTileTypesForPairs count paletteSize r).count k
          = (baseTypes count paletteSize).count k)
    ∧ (count % 2 = 0 →
        ∀ k, Even ((generateTileTypesForPairs count paletteSize r).count k)) := by
  refine ⟨?_, ?_, ?_⟩
  · rw [generateTileTypesForPairs, length_fisherYates, length_baseTypes]
  · intro k
    exact count_fisherYates _ r k
  · intro heven k
    rw [generateTileTypesForPairs, count_fisherYates, count_baseTypes]
    refine ⟨((List.range (count / 2)).map (fun i => i % paletteSize)).count k, ?_⟩
    split_ifs <;> omega

/-- Witness for `generateTileTypes_pairs_correct`: a 6-tile layout over a
2-kind palette with a concrete random oracle. -/
theorem generateTileTypes_pairs_correct_witness :
    6 % 2 = 0
    ∧ (generateTileTypesForPairs 6 2 (fun n => n * 7 + 3)).length = 6
    ∧ Even ((generateTileTypesForPairs 6 2 (fun n => n * 7 + 3)).count 0) :=
  ⟨by decide,
   (generateTileTypes_pairs_correct 6 2 (fun n => n * 7 + 3)).1,
   (generateTileTypes_pairs_correct 6 2 (fun n => n * 7 + 3)).2.2 (by decide) 0⟩

/-- Claim C8: on every match, the score increases by exactly
`100 * comboMultiplier`; the multiplier is the previous one plus 1 when the
previous match happened strictly less than 3000 ms earlier and 1 otherwise;
the persisted high score becomes the new score exactly when the new score
exceeds it, hence never decreases. -/
theorem score_combo_highscore_correct (s : GameState) (now : Int) :
    (onHoldMatch s now).score = s.score + 100 * (onHoldMatch s now).comboCount
    ∧ (onHoldMatch s now).comboCount
        = (if now - s.lastMatchTime < 3000 then s.comboCount + 1 else 1)
    ∧ (onHoldMatch s now).highScore
        = (if s.highScore < (onHoldMatch s now).score
            then (onHoldMatch s now).score else s.highScore)
    ∧ s.highScore ≤ (onHoldMatch s now).highScore := by
  simp only [onHoldMatch, COMBO_TIME_WINDOW]
  refine ⟨by trivial, by trivial, by trivial, ?_⟩
  split <;> split <;> omega

/-- Claim C7, counterexample: in a terminal (Lost) state — overlay visible,
hold full with no pair — `GameScene.shuffleBoard` is not rejected: it still
mutates the board tiles. -/
theorem shuffle_not_rejected_in_terminal_state :
    lostState.overlayVisible = true
    ∧ shuffleBoard lostState (fun _ => 0) ≠ lostState := by
  exact ⟨rfl, by decide⟩

/-- Claim C7 (amended): while the terminal overlay is visible, tile selection
is rejected with no side effect on any state — but board shuffle is not
guarded.  This theorem proves the tile-selection half. -/
theorem tile_selection_rejected_in_terminal_state
    (s : GameState) (tid : Nat) (now : Int) (h : s.overlayVisible = true) :
    onTileSelected s tid now = (s, false) := by
  simp [onTileSelected, h]

/-- Witness for `tile_selection_rejected_in_terminal_state` at the concrete
lost state. -/
theorem tile_selection_rejected_in_terminal_state_witness :
    lostState.overlayVisible = true
    ∧ onTileSelected lostState 0 0 = (lostState, false) :=
  ⟨by decide, tile_selection_rejected_in_terminal_state lostState 0 0 (by decide)⟩

/-- Claim C6, counterexample: on a fresh two-tile board of kind 0, removing
one tile (the very first selection of a game) leaves an odd number of
non-removed kind-0 tiles, so the per-kind evenness does not hold on the board
alone immediately after a tile removal. -/
theorem board_kind_count_odd_after_removal :
    ¬ Even (countKindBoard 0 (removeTile pairBoard 0)) := by
  rw [Nat.even_iff]
  decide

/-! ## Hold-area lemmas -/

/-- Structural form of the first-empty-slot insertion. -/
def placeFirstEmpty : HoldSlots → Nat → HoldSlots
  | [], _ => []
  | none :: rest, k => some k :: rest
  | some a :: rest, k => some a :: placeFirstEmpty rest k

theorem insertTile_eq_place (slots : HoldSlots) (k : Nat) :
    insertTile slots k = placeFirstEmpty slots k := by
  induction slots with
  | nil => rfl
  | cons s rest ih =>
    cases s with
    | none => simp [insertTile, placeFirstEmpty, List.findIdx?_cons]
    | some a =>
      simp only [insertTile, List.findIdx?_cons, Option.isNone_some, if_false,
        List.findIdx?_succ, placeFirstEmpty]
      cases h : rest.findIdx? (fun s => s.isNone) with
      | none =>
        simp only [insertTile, h] at ih
        simpa using ih
      | some j =>
        simp only [insertTile, h] at ih
        simpa using ih

theorem canAddTile_cons_some (a : Nat) (rest : HoldSlots) :
    canAddTile (some a :: rest) = canAddTile rest := by
  simp [canAddTile]

theorem kindsOf_place_perm (slots : HoldSlots) (k : Nat)
    (h : canAddTile slots = true) :
    List.Perm (kindsOf (placeFirstEmpty slots k)) (k :: kindsOf slots) := by
  induction slots with
  | nil => simp [canAddTile] at h
  | cons s rest ih =>
    cases s with
    | none =>
      simp only [placeFirstEmpty, kindsOf, List.filterMap_cons_some (f := id) (b := k) rfl,
        List.filterMap_cons_none (f := id) rfl]
      exact List.Perm.refl _
    | some a =>
      rw [canAddTile_cons_some] at h
      have h1 : kindsOf (placeFirstEmpty (some a :: rest) k)
          = a :: kindsOf (placeFirstEmpty rest k) := by
        simp [placeFirstEmpty, kindsOf]
      have h2 : kindsOf (some a :: rest) = a :: kindsOf rest := by simp [kindsOf]
      rw [h1, h2]
      exact ((ih h).cons a).trans (List.Perm.swap k a _)

theorem holdTileCount_eq_kinds_length (slots : HoldSlots) :
    holdTileCount slots = (kindsOf slots).length := by
  induction slots with
  | nil => rfl
  | cons s rest ih =>
    cases s with
    | none => simpa [holdTileCount, kindsOf, List.countP_cons] using ih
    | some a =>
      have hstep : holdTileCount (some a :: rest) = holdTileCount rest + 1 := by
        simp [holdTileCount, List.countP_cons]
      rw [hstep, ih]
      simp [kindsOf]

theorem countP_eq_kind_count (slots : HoldSlots) (t : Nat) :
    slots.countP (fun o => o = some t) = (kindsOf slots).count t := by
  induction slots with
  | nil => rfl
  | cons s rest ih =>
    cases s with
    | none => simpa [kindsOf, List.countP_cons] using ih
    | some a =>
      simp only [kindsOf, List.filterMap_cons_some (f := id) (b := a) rfl,
        List.countP_cons, List.count_cons] at ih ⊢
      by_cases hak : a = t <;> simp [hak, ih, beq_iff_eq]

theorem clearFirst_of_not_mem (slots : HoldSlots) (k : Nat)
    (h : k ∉ kindsOf slots) : clearFirst slots k = slots := by
  induction slots with
  | nil => rfl
  | cons s rest ih =>
    cases s with
    | none =>
      simp only [kindsOf, List.filterMap_cons_none (f := id) rfl] at h
      simp [clearFirst, ih h]
    | some a =>
      simp only [kindsOf, List.filterMap_cons_some (f := id) (b := a) rfl,
        List.mem_cons, not_or] at h
      have hak : ¬ (some a = some k) := by
        simp only [Option.some.injEq]
        exact fun hh => h.1 hh.symm
      simp [clearFirst, hak, ih h.2]

theorem count_kindsOf_clearFirst (slots : HoldSlots) (k t : Nat)
    (h : k ∈ kindsOf slots) :
    (kindsOf (clearFirst slots k)).count t + (if k = t then 1 else 0)
      = (kindsOf slots).count t := by
  induction slots with
  | nil => simp [kindsOf] at h
  | cons s rest ih =>
    cases s with
    | none =>
      simp only [kindsOf, List.filterMap_cons_none (f := id) rfl] at h ⊢
      have := ih h
      simpa [clearFirst, kindsOf] using this
    | some a =>
      by_cases hak : a = k
      · subst hak
        simp [clearFirst, kindsOf, List.count_cons, beq_iff_eq]
      · have hs : ¬ (some a = some k) := by simp [hak]
        have h2 : k ∈ kindsOf rest := by
          simp only [kindsOf, List.filterMap_cons_some (f := id) (b := a) rfl,
            List.mem_cons] at h
          tauto
        have hrec := ih h2
        simp only [clearFirst, hs, if_false, kindsOf,
          List.filterMap_cons_some (f := id) (b := a) rfl, List.count_cons,
          beq_iff_eq] at hrec ⊢
        split_ifs at hrec ⊢ <;> omega

theorem kindsOf_map_some (xs : List Nat) : kindsOf (xs.map some) = xs := by
  induction xs with
  | nil => rfl
  | cons x xs ih => simp only [kindsOf] at ih ⊢; simp [ih]

theorem kindsOf_replicate_none (n : Nat) : kindsOf (List.replicate n none) = [] := by
  induction n with
  | zero => rfl
  | succ n ih => simp only [kindsOf] at ih ⊢; simp [List.replicate_succ, ih]

theorem kindsOf_compact (slots : HoldSlots) :
    kindsOf (compactSlots slots) = kindsOf slots := by
  have h1 := kindsOf_map_some (kindsOf slots)
  have h2 := kindsOf_replicate_none (slots.length - (kindsOf slots).length)
  simp only [compactSlots, kindsOf, List.filterMap_append] at h1 h2 ⊢
  rw [h1, h2, List.append_nil]

theorem allNone_isCompactB (slots : HoldSlots) (h : allNone slots = true) :
    isCompactB slots = true := by
  cases slots with
  | nil => rfl
  | cons s rest =>
    cases s with
    | none =>
      simp only [allNone, List.all_cons, Bool.and_eq_true] at h
      simpa [isCompactB, allNone] using h.2
    | some a => simp [allNone] at h

theorem allNone_replicate (n : Nat) : allNone (List.replicate n none) = true := by
  simp [allNone, List.all_eq_true, List.mem_replicate]

theorem isCompactB_pack (xs : List Nat) (n : Nat) :
    isCompactB (xs.map some ++ List.replicate n none) = true := by
  induction xs with
  | nil =>
    cases n with
    | zero => rfl
    | succ n => simpa [isCompactB, List.replicate_succ] using allNone_replicate n
  | cons x xs ih => simpa [isCompactB] using ih

theorem isCompactB_compact (slots : HoldSlots) :
    isCompactB (compactSlots slots) = true :=
  isCompactB_pack _ _

theorem isCompactB_place (slots : HoldSlots) (k : Nat)
    (h : isCompactB slots = true) :
    isCompactB (placeFirstEmpty slots k) = true := by
  induction slots with
  | nil => rfl
  | cons s rest ih =>
    cases s with
    | none =>
      simp only [isCompactB] at h
      simpa [placeFirstEmpty, isCompactB] using allNone_isCompactB rest h
    | some a =>
      simp only [isCompactB] at h
      simpa [placeFirstEmpty, isCompactB] using ih h

theorem not_canAddTile_iff_all_isSome (slots : HoldSlots) :
    (canAddTile slots = false) ↔ slots.all (fun s => s.isSome) = true := by
  induction slots with
  | nil => simp [canAddTile]
  | cons s rest ih =>
    cases s with
    | none => simp [canAddTile]
    | some a => simpa [canAddTile, List.all_cons] using ih

theorem findIdx?_isNone_of_canAdd (slots : HoldSlots) (h : canAddTile slots = true) :
    ∃ i, slots.findIdx? (fun s => s.isNone) = some i := by
  cases hf : slots.findIdx? (fun s => s.isNone) with
  | some i => exact ⟨i, rfl⟩
  | none =>
    exfalso
    have hall := List.findIdx?_eq_none_iff.mp hf
    simp only [canAddTile, List.any_eq_true] at h
    obtain ⟨x, hx, hpx⟩ := h
    rw [hall x hx] at hpx
    cases hpx

theorem canAdd_of_findIdx?_isNone (slots : HoldSlots) (i : Nat)
    (h : slots.findIdx? (fun s => s.isNone) = some i) :
    canAddTile slots = true := by
  by_contra hc
  have hc' : canAddTile slots = false := by
    revert hc; cases canAddTile slots <;> simp
  rw [not_canAddTile_iff_all_isSome] at hc'
  have hnone : slots.findIdx? (fun s => s.isNone) = none := by
    rw [List.findIdx?_eq_none_iff]
    intro x hx
    have hs := List.all_eq_true.mp hc' x hx
    cases x with
    | none => simp at hs
    | some a => rfl
  rw [hnone] at h
  cases h

theorem mem_some_of_kind_mem (slots : HoldSlots) (t : Nat) (h : t ∈ kindsOf slots) :
    some t ∈ slots := by
  simp only [kindsOf, List.mem_filterMap, id] at h
  obtain ⟨o, ho, hid⟩ := h
  rw [← hid]
  exact ho

theorem hasPairB_true_iff (slots : HoldSlots) :
    hasPairB slots = true ↔ ∃ t, some t ∈ slots ∧ 2 ≤ (kindsOf slots).count t := by
  simp only [hasPairB, List.any_eq_true]
  constructor
  · rintro ⟨s, hs, hp⟩
    cases s with
    | none => simp at hp
    | some t =>
      refine ⟨t, hs, ?_⟩
      rw [← countP_eq_kind_count]
      exact of_decide_eq_true hp
  · rintro ⟨t, hmem, hcnt⟩
    refine ⟨some t, hmem, ?_⟩
    rw [← countP_eq_kind_count] at hcnt
    exact decide_eq_true hcnt

theorem eachKindAtMostOnce_iff (slots : HoldSlots) :
    eachKindAtMostOnce slots = true
      ↔ ∀ t ∈ kindsOf slots, (kindsOf slots).count t ≤ 1 := by
  simp [eachKindAtMostOnce, List.all_eq_true]

theorem kind_count_le_one (slots : HoldSlots)
    (hd : eachKindAtMostOnce slots = true) (t : Nat) :
    (kindsOf slots).count t ≤ 1 := by
  by_cases hm : t ∈ kindsOf slots
  · exact (eachKindAtMostOnce_iff slots).mp hd t hm
  · simp [List.count_eq_zero_of_not_mem hm]

/-- Claim C3: after any `addTile` call — insertion, match, or rejection —
the occupied hold slots form a contiguous block starting at slot 0 with no
empty slot between occupied ones (given the invariant held before, as it
does in every reachable state), and compaction preserves the relative order
and the multiset of kinds of the surviving slots. -/
theorem hold_compaction_invariant (slots : HoldSlots) (k : Nat)
    (hc : isCompactB slots = true) :
    isCompactB (addTile slots k).slots = true
    ∧ ∀ s : HoldSlots, kindsOf (compactSlots s) = kindsOf s := by
  refine ⟨?_, kindsOf_compact⟩
  cases h : slots.findIdx? (fun s => s.isNone) with
  | none => simpa [addTile, h] using hc
  | some i =>
    have hins : slots.set i (some k) = placeFirstEmpty slots k := by
      have h2 := insertTile_eq_place slots k
      simpa [insertTile, h] using h2
    simp only [addTile, h]
    split
    · simpa [handleMatch] using
        isCompactB_compact (clearFirst (clearFirst (slots.set i (some k)) k) k)
    · rw [hins]
      exact isCompactB_place slots k hc

/-- Claim C4: an `addTile` call that inserts (a slot was free) emits the
loss signal iff after the insertion all slots are occupied and no kind
occurs twice among them; and an insertion that produces a match never emits
the loss signal. -/
theorem loss_signal_iff_full_no_pair (slots : HoldSlots) (k : Nat)
    (h : canAddTile slots = true) :
    ((addTile slots k).gameOver = true ↔
      ((insertTile slots k).all (fun s => s.isSome) = true
        ∧ hasPairB (insertTile slots k) = false))
    ∧ ((addTile slots k).matched = true → (addTile slots k).gameOver = false) := by
  obtain ⟨i, hf⟩ := findIdx?_isNone_of_canAdd slots h
  have hins : insertTile slots k = slots.set i (some k) := by simp [insertTile, hf]
  have hperm : List.Perm (kindsOf (slots.set i (some k))) (k :: kindsOf slots) := by
    rw [← hins, insertTile_eq_place]
    exact kindsOf_place_perm slots k h
  rw [hins]
  simp only [addTile, hf]
  split
  case isTrue hm =>
    refine ⟨?_, fun _ => rfl⟩
    constructor
    · intro hfalse; simp at hfalse
    · rintro ⟨hfull, hnp⟩
      exfalso
      have hcnt : 2 ≤ (kindsOf (slots.set i (some k))).count k := by
        rw [← countP_eq_kind_count]
        exact hm
      have hmem : some k ∈ slots.set i (some k) :=
        mem_some_of_kind_mem _ k (List.count_pos_iff.mp (by omega))
      have : hasPairB (slots.set i (some k)) = true :=
        (hasPairB_true_iff _).mpr ⟨k, hmem, hcnt⟩
      rw [this] at hnp
      cases hnp
  case isFalse hm =>
    refine ⟨?_, ?_⟩
    · simp only [Bool.and_eq_true, Bool.not_eq_true']
      rw [not_canAddTile_iff_all_isSome]
    · intro hmt
      simp at hmt

/-- Claim C10: assuming each kind occurs at most once among the occupied
slots (which every reachable hold state satisfies), the same holds after any
completed `addTile` call — a second instance of a kind is always consumed by
the match step within the call — and consequently an insertion that fills
the hold without producing a match always emits the loss signal (the
"some kind occurs twice" escape of the full-hold check is unreachable). -/
theorem hold_kind_at_most_once_invariant (slots : HoldSlots) (k : Nat)
    (hd : eachKindAtMostOnce slots = true) :
    eachKindAtMostOnce (addTile slots k).slots = true
    ∧ (canAddTile slots = true → (addTile slots k).matched = false →
        canAddTile (addTile slots k).slots = false →
        (addTile slots k).gameOver = true) := by
  cases hf : slots.findIdx? (fun s => s.isNone) with
  | none =>
    refine ⟨by simpa [addTile, hf] using hd, ?_⟩
    intro hca _ _
    exfalso
    obtain ⟨j, hj⟩ := findIdx?_isNone_of_canAdd slots hca
    rw [hf] at hj
    cases hj
  | some i =>
    have hca : canAddTile slots = true := canAdd_of_findIdx?_isNone slots i hf
    have hins : insertTile slots k = slots.set i (some k) := by simp [insertTile, hf]
    have hperm : List.Perm (kindsOf (slots.set i (some k))) (k :: kindsOf slots) := by
      rw [← hins, insertTile_eq_place]
      exact kindsOf_place_perm slots k hca
    have hcount1 : ∀ t, (kindsOf (slots.set i (some k))).count t
        = (kindsOf slots).count t + (if k = t then 1 else 0) := by
      intro t
      rw [hperm.count_eq t, List.count_cons]
      simp [beq_iff_eq]
    simp only [addTile, hf]
    split
    case isTrue hm =>
      have hcntk : 2 ≤ (kindsOf (slots.set i (some k))).count k := by
        rw [← countP_eq_kind_count]
        exact hm
      have hmem1 : k ∈ kindsOf (slots.set i (some k)) :=
        List.count_pos_iff.mp (by omega)
      have e1 := fun t => count_kindsOf_clearFirst (slots.set i (some k)) k t hmem1
      have hcnt_e1 : 0 < (kindsOf (clearFirst (slots.set i (some k)) k)).count k := by
        have ha : (kindsOf (clearFirst (slots.set i (some k)) k)).count k + 1
            = (kindsOf (slots.set i (some k))).count k := by simpa using e1 k
        omega
      have hmem2 : k ∈ kindsOf (clearFirst (slots.set i (some k)) k) :=
        List.count_pos_iff.mp hcnt_e1
      have e2 := fun t =>
        count_kindsOf_clearFirst (clearFirst (slots.set i (some k)) k) k t hmem2
      refine ⟨?_, fun _ hmt _ => absurd hmt (by simp)⟩
      show eachKindAtMostOnce (handleMatch (slots.set i (some k)) k) = true
      rw [eachKindAtMostOnce_iff]
      have heq : kindsOf (handleMatch (slots.set i (some k)) k)
          = kindsOf (clearFirst (clearFirst (slots.set i (some k)) k) k) := by
        simp [handleMatch, kindsOf_compact]
      rw [heq]
      intro t _
      have h1 := e1 t
      have h2 := e2 t
      have h3 := hcount1 t
      have h4 := kind_count_le_one slots hd t
      split_ifs at h1 h2 h3 <;> omega
    case isFalse hm =>
      have hcntk : (kindsOf (slots.set i (some k))).count k ≤ 1 := by
        rw [← countP_eq_kind_count]
        omega
      constructor
      · show eachKindAtMostOnce (slots.set i (some k)) = true
        rw [eachKindAtMostOnce_iff]
        intro t _
        by_cases hkt : k = t
        · subst hkt
          exact hcntk
        · have h3 := hcount1 t
          have h4 := kind_count_le_one slots hd t
          rw [if_neg hkt] at h3
          omega
      · intro _ _ hfull
        show (!(canAddTile (slots.set i (some k))) && !(hasPairB (slots.set i (some k)))) = true
        have hfull' : canAddTile (slots.set i (some k)) = false := hfull
        cases hhp : hasPairB (slots.set i (some k)) with
        | false => simp [hfull']
        | true =>
          exfalso
          obtain ⟨t, hmem, hcnt⟩ := (hasPairB_true_iff _).mp hhp
          by_cases hkt : k = t
          · subst hkt
            omega
          · have h3 := hcount1 t
            have h4 := kind_count_le_one slots hd t
            rw [if_neg hkt] at h3
            omega

/-- Witness for `hold_compaction_invariant`: inserting a matching kind into
a one-tile hold leaves a compact (indeed empty) hold. -/
theorem hold_compaction_invariant_witness :
    isCompactB [some 1, none, none, none] = true
    ∧ isCompactB (addTile [some 1, none, none, none] 1).slots = true :=
  ⟨by decide, (hold_compaction_invariant [some 1, none, none, none] 1 (by decide)).1⟩

/-- Witness for `loss_signal_iff_full_no_pair`: filling the fourth slot with
a fourth distinct kind fires the loss signal. -/
theorem loss_signal_iff_full_no_pair_witness :
    canAddTile [some 1, some 2, some 3, none] = true
    ∧ (addTile [some 1, some 2, some 3, none] 4).gameOver = true :=
  ⟨by decide,
   ((loss_signal_iff_full_no_pair [some 1, some 2, some 3, none] 4 (by decide)).1).mpr
     (by decide)⟩

/-- Witness for `hold_kind_at_most_once_invariant` on a distinct-kind hold
filled to capacity by a non-matching insertion. -/
theorem hold_kind_at_most_once_invariant_witness :
    eachKindAtMostOnce [some 1, some 2, some 3, none] = true
    ∧ eachKindAtMostOnce (addTile [some 1, some 2, some 3, none] 4).slots = true
    ∧ (addTile [some 1, some 2, some 3, none] 4).gameOver = true := by
  have h := hold_kind_at_most_once_invariant [some 1, some 2, some 3, none] 4 (by decide)
  exact ⟨by decide, h.1, h.2 (by decide) (by decide) (by decide)⟩

/-! ## Free-state characterization and the hint search -/

theorem natAbs_sub_lt_one_iff (a b : Int) : (a - b).natAbs < 1 ↔ a = b := by
  rw [Nat.lt_one_iff, Int.natAbs_eq_zero, sub_eq_zero]

/-- Claim C2: `checkTileFree` returns `false` exactly when either some
non-removed tile at a strictly higher layer overlaps `t` (`|colDiff| < 1` and
`|rowDiff| < 1`), or — in the absence of such a cover — both the left
neighbour (column−1, same row, same layer) and the right neighbour
(column+1, same row, same layer) exist among the non-removed tiles; in all
other cases it returns `true`.  The hypothesis `hid` states that any list
entry carrying `t`'s object identity is `t` itself (true of every real
board, whose tiles are distinct objects with distinct ids). -/
theorem checkTileFree_characterization (t : Tile) (active : List Tile)
    (hid : ∀ o ∈ active, o.id = t.id → o.data = t.data) :
    (checkTileFree t active = false ↔
      ((∃ o ∈ active, t.data.layer < o.data.layer
          ∧ (o.data.col - t.data.col).natAbs < 1
          ∧ (o.data.row - t.data.row).natAbs < 1)
        ∨ ((¬ ∃ o ∈ active, t.data.layer < o.data.layer
              ∧ (o.data.col - t.data.col).natAbs < 1
              ∧ (o.data.row - t.data.row).natAbs < 1)
            ∧ (∃ o ∈ active, o.data.layer = t.data.layer
                ∧ o.data.row = t.data.row ∧ o.data.col = t.data.col - 1)
            ∧ (∃ o ∈ active, o.data.layer = t.data.layer
                ∧ o.data.row = t.data.row ∧ o.data.col = t.data.col + 1)))) := by
  have h1 : (active.any (fun other =>
      (other.id != t.id) && decide (t.data.layer < other.data.layer) &&
      decide ((other.data.col - t.data.col).natAbs < 1) &&
      decide ((other.data.row - t.data.row).natAbs < 1))) = true
      ↔ (∃ o ∈ active, t.data.layer < o.data.layer
          ∧ (o.data.col - t.data.col).natAbs < 1
          ∧ (o.data.row - t.data.row).natAbs < 1) := by
    simp only [List.any_eq_true, Bool.and_eq_true, bne_iff_ne, decide_eq_true_eq]
    constructor
    · rintro ⟨o, ho, ⟨⟨⟨hne, hl⟩, hc⟩, hr⟩⟩
      exact ⟨o, ho, hl, hc, hr⟩
    · rintro ⟨o, ho, hl, hc, hr⟩
      refine ⟨o, ho, ⟨⟨⟨?_, hl⟩, hc⟩, hr⟩⟩
      intro heq
      rw [hid o ho heq] at hl
      exact lt_irrefl _ hl
  have h2 : (active.any (fun other =>
      (other.id != t.id) && decide (other.data.layer = t.data.layer) &&
      decide ((other.data.row - t.data.row).natAbs < 1) &&
      decide (other.data.col = t.data.col - 1))) = true
      ↔ (∃ o ∈ active, o.data.layer = t.data.layer
          ∧ o.data.row = t.data.row ∧ o.data.col = t.data.col - 1) := by
    simp only [List.any_eq_true, Bool.and_eq_true, bne_iff_ne, decide_eq_true_eq,
      natAbs_sub_lt_one_iff]
    constructor
    · rintro ⟨o, ho, ⟨⟨⟨hne, hl⟩, hr⟩, hc⟩⟩
      exact ⟨o, ho, hl, hr, hc⟩
    · rintro ⟨o, ho, hl, hr, hc⟩
      refine ⟨o, ho, ⟨⟨⟨?_, hl⟩, hr⟩, hc⟩⟩
      intro heq
      rw [hid o ho heq] at hc
      omega
  have h3 : (active.any (fun other =>
      (other.id != t.id) && decide (other.data.layer = t.data.layer) &&
      decide ((other.data.row - t.data.row).natAbs < 1) &&
      decide (other.data.col = t.data.col + 1))) = true
      ↔ (∃ o ∈ active, o.data.layer = t.data.layer
          ∧ o.data.row = t.data.row ∧ o.data.col = t.data.col + 1) := by
    simp only [List.any_eq_true, Bool.and_eq_true, bne_iff_ne, decide_eq_true_eq,
      natAbs_sub_lt_one_iff]
    constructor
    · rintro ⟨o, ho, ⟨⟨⟨hne, hl⟩, hr⟩, hc⟩⟩
      exact ⟨o, ho, hl, hr, hc⟩
    · rintro ⟨o, ho, hl, hr, hc⟩
      refine ⟨o, ho, ⟨⟨⟨?_, hl⟩, hr⟩, hc⟩⟩
      intro heq
      rw [hid o ho heq] at hc
      omega
  rw [checkTileFree]
  split
  case isTrue hb =>
    exact iff_of_true rfl (Or.inl (h1.mp hb))
  case isFalse hb =>
    have hb' : ¬ (∃ o ∈ active, t.data.layer < o.data.layer
        ∧ (o.data.col - t.data.col).natAbs < 1
        ∧ (o.data.row - t.data.row).natAbs < 1) := fun hx => hb (h1.mpr hx)
    simp only [Bool.or_eq_false_iff, Bool.not_eq_false']
    constructor
    · rintro ⟨hL, hR⟩
      exact Or.inr ⟨hb', h2.mp hL, h3.mp hR⟩
    · rintro (hx | ⟨_, hl, hr⟩)
      · exact absurd hx hb'
      · exact ⟨h2.mpr hl, h3.mpr hr⟩

/-- A layer-0 tile and a tile covering it one layer above. -/
def coveredTile : Tile := ⟨0, ⟨1, 0, 0, 0⟩, true, false⟩

/-- The covering tile used by the witness. -/
def coverTile : Tile := ⟨1, ⟨1, 0, 1, 1⟩, true, false⟩

/-- Witness for `checkTileFree_characterization`: a covered tile is not
free, by the rule-1 disjunct. -/
theorem checkTileFree_characterization_witness :
    checkTileFree coveredTile [coveredTile, coverTile] = false :=
  (checkTileFree_characterization coveredTile [coveredTile, coverTile]
    (by decide)).mpr (Or.inl (by decide))

/-- A tile that is on the board and currently free. -/
def isFreeTile (t : Tile) : Bool := !t.isRemoved && t.isFree

/-- Priority class 1: a free tile whose kind has an instance in the hold. -/
def hintClass1 (holdTypeCounts : Nat → Nat) (t : Tile) : Bool :=
  decide (1 ≤ holdTypeCounts t.data.tileType)

/-- Priority class 2: a free tile with another distinct free tile of the
same kind. -/
def hintClass2 (tiles : List Tile) (t : Tile) : Bool :=
  (getFreeTiles tiles).any (fun o => (o.id != t.id) && (o.data.tileType == t.data.tileType))

/-- Priority class 3: a free tile whose kind has at least two non-removed
instances on the board (the tile itself included). -/
def hintClass3 (tiles : List Tile) (t : Tile) : Bool :=
  decide (2 ≤ ((getRemainingTiles tiles).filter
    (fun o => o.data.tileType == t.data.tileType)).length)

/-- Rendering of the claim about `findHintTile`: the first currently-free
tile in board iteration order satisfying the highest non-empty priority
class, and `none` when no class is satisfiable.  (Definition follows the
claim text, to be compared with the source-derived `findHintTile`.) -/
def findHintTileSpec (tiles : List Tile) (hc : Nat → Nat) : Option Tile :=
  if tiles.any (fun t => isFreeTile t && hintClass1 hc t) then
    tiles.find? (fun t => isFreeTile t && hintClass1 hc t)
  else if tiles.any (fun t => isFreeTile t && hintClass2 tiles t) then
    tiles.find? (fun t => isFreeTile t && hintClass2 tiles t)
  else if tiles.any (fun t => isFreeTile t && hintClass3 tiles t) then
    tiles.find? (fun t => isFreeTile t && hintClass3 tiles t)
  else none

theorem find?_filter_and (xs : List Tile) (p q : Tile → Bool) :
    (xs.filter p).find? q = xs.find? (fun a => p a && q a) := by
  induction xs with
  | nil => rfl
  | cons x xs ih =>
    by_cases hp : p x = true
    · by_cases hq : q x = true
      · simp [List.filter_cons_of_pos hp, List.find?_cons_of_pos, hp, hq]
      · have hq' : ¬ (q x = true) := hq
        simp [List.filter_cons_of_pos hp, List.find?_cons_of_neg, hp, hq', ih]
    · have hnot : (fun a => p a && q a) x = false := by
        simp [Bool.and_eq_true]
        intro hc
        exact absurd hc hp
      simp [List.filter_cons_of_neg hp, List.find?_cons_of_neg, hnot, ih]

theorem any_eq_false_of_find?_eq_none (xs : List Tile) (p : Tile → Bool)
    (h : xs.find? p = none) : xs.any p = false := by
  rw [List.find?_eq_none] at h
  simp only [List.any_eq_false]
  exact h

theorem any_eq_true_of_find?_eq_some (xs : List Tile) (p : Tile → Bool) (a : Tile)
    (h : xs.find? p = some a) : xs.any p = true := by
  rw [List.any_eq_true]
  exact ⟨a, List.mem_of_find?_eq_some h, List.find?_some h⟩

/-- Claim C9: `findHintTile` returns the first currently-free tile in board
iteration order satisfying the highest non-empty priority class — (1) kind
held in the hold area, else (2) kind with another distinct free tile, else
(3) kind with at least 2 non-removed instances on the board — and `none`
when no class is satisfiable; as a pure function of its inputs it is
deterministic. -/
theorem findHintTile_eq_spec (tiles : List Tile) (hc : Nat → Nat) :
    findHintTile tiles hc = findHintTileSpec tiles hc := by
  simp only [findHintTile, findHintTileSpec, hintClass1, hintClass2, hintClass3,
    isFreeTile, getFreeTiles, find?_filter_and]
  cases h1 : tiles.find? (fun t =>
      (!t.isRemoved && t.isFree) && decide (1 ≤ hc t.data.tileType)) with
  | some t =>
    rw [if_pos (any_eq_true_of_find?_eq_some _ _ _ h1)]
  | none =>
    have ha1 := any_eq_false_of_find?_eq_none _ _ h1
    rw [if_neg (by rw [ha1]; exact Bool.false_ne_true)]
    cases h2 : tiles.find? (fun t =>
        (!t.isRemoved && t.isFree) &&
          (List.filter (fun o => !o.isRemoved && o.isFree) tiles).any
            (fun o => (o.id != t.id) && (o.data.tileType == t.data.tileType))) with
    | some t =>
      rw [if_pos (any_eq_true_of_find?_eq_some _ _ _ h2)]
    | none =>
      have ha2 := any_eq_false_of_find?_eq_none _ _ h2
      rw [if_neg (by rw [ha2]; exact Bool.false_ne_true)]
      cases h3 : tiles.find? (fun t =>
          (!t.isRemoved && t.isFree) && decide (2 ≤ (List.filter
            (fun o => o.data.tileType == t.data.tileType)
            (getRemainingTiles tiles)).length)) with
      | some t =>
        rw [if_pos (any_eq_true_of_find?_eq_some _ _ _ h3)]
      | none =>
        have ha3 := any_eq_false_of_find?_eq_none _ _ h3
        rw [if_neg (by rw [ha3]; exact Bool.false_ne_true)]

/-! ## Board counting lemmas and the turn-level theorems -/

theorem activeKinds_map_setFree (act : List Tile) (ts : List Tile) :
    activeKinds (ts.map (fun t =>
      if t.isRemoved then t else { t with isFree := checkTileFree t act })) = activeKinds ts := by
  induction ts with
  | nil => rfl
  | cons t rest ih =>
    cases hrm : t.isRemoved with
    | true => simp [activeKinds, List.filter_cons, hrm] at ih ⊢; exact ih
    | false => simp [activeKinds, List.filter_cons, hrm] at ih ⊢; exact ih

theorem activeKinds_updateFreeTiles (ts : List Tile) :
    activeKinds (updateFreeTiles ts) = activeKinds ts :=
  activeKinds_map_setFree _ ts

theorem getRemainingCount_eq_activeKinds_length (ts : List Tile) :
    getRemainingCount ts = (activeKinds ts).length := by
  simp [getRemainingCount, getRemainingTiles, activeKinds]

theorem markRemoved_of_id_not_mem (ts : List Tile) (tid : Nat)
    (h : ∀ v ∈ ts, v.id ≠ tid) : markRemoved ts tid = ts := by
  induction ts with
  | nil => rfl
  | cons u rest ih =>
    have hu : (u.id == tid) = false := by
      simp only [beq_eq_false_iff_ne, ne_eq]
      exact h u (List.mem_cons_self u rest)
    have hrest := ih (fun v hv => h v (List.mem_cons_of_mem u hv))
    simp only [markRemoved, List.map_cons] at hrest ⊢
    rw [hu, hrest]
    simp

theorem activeKinds_markRemoved_split (ts : List Tile) (tid : Nat) (t0 : Tile)
    (hnodup : (ts.map (fun t => t.id)).Nodup)
    (hmem : t0 ∈ ts) (hid : t0.id = tid) (hnr : t0.isRemoved = false) :
    ∃ l1 l2, activeKinds ts = l1 ++ t0.data.tileType :: l2
      ∧ activeKinds (markRemoved ts tid) = l1 ++ l2 := by
  induction ts with
  | nil => simp at hmem
  | cons u rest ih =>
    rw [List.map_cons, List.nodup_cons] at hnodup
    rcases List.mem_cons.mp hmem with heq | hrest
    · subst heq
      have hu : (t0.id == tid) = true := by simp [beq_iff_eq, hid]
      have hrest_eq : markRemoved rest tid = rest := by
        apply markRemoved_of_id_not_mem
        intro v hv hvid
        apply hnodup.1
        have hvmem : v.id ∈ List.map (fun t => t.id) rest :=
          List.mem_map_of_mem (fun t => t.id) hv
        rwa [hvid, ← hid] at hvmem
      refine ⟨[], activeKinds rest, ?_, ?_⟩
      · simp [activeKinds, List.filter_cons, hnr]
      · simp only [markRemoved, List.map_cons, hu, if_true]
        rw [show List.map (fun t => if t.id == tid then { t with isRemoved := true } else t) rest
            = markRemoved rest tid from rfl, hrest_eq]
        simp [activeKinds, List.filter_cons]
    · have huid : u.id ≠ tid := by
        intro hu
        apply hnodup.1
        have h0mem : t0.id ∈ List.map (fun t => t.id) rest :=
          List.mem_map_of_mem (fun t => t.id) hrest
        rwa [hid, ← hu] at h0mem
      have hu : (u.id == tid) = false := by simp [beq_iff_eq, huid]
      obtain ⟨l1, l2, hA, hB⟩ := ih hnodup.2 hrest
      cases hrm : u.isRemoved with
      | true =>
        refine ⟨l1, l2, ?_, ?_⟩
        · simpa [activeKinds, List.filter_cons, hrm] using hA
        · simp only [markRemoved, List.map_cons, hu, if_false]
          rw [show List.map (fun t => if t.id == tid then { t with isRemoved := true } else t) rest
              = markRemoved rest tid from rfl]
          simpa [activeKinds, List.filter_cons, hrm] using hB
      | false =>
        refine ⟨u.data.tileType :: l1, l2, ?_, ?_⟩
        · simpa [activeKinds, List.filter_cons, hrm] using hA
        · simp only [markRemoved, List.map_cons, hu, if_false]
          rw [show List.map (fun t => if t.id == tid then { t with isRemoved := true } else t) rest
              = markRemoved rest tid from rfl]
          simpa [activeKinds, List.filter_cons, hrm] using hB

theorem tileTypeOf_eq (ts : List Tile) (tid : Nat) (t0 : Tile)
    (hnodup : (ts.map (fun t => t.id)).Nodup)
    (hmem : t0 ∈ ts) (hid : t0.id = tid) :
    tileTypeOf ts tid = t0.data.tileType := by
  induction ts with
  | nil => simp at hmem
  | cons u rest ih =>
    rw [List.map_cons, List.nodup_cons] at hnodup
    rcases List.mem_cons.mp hmem with heq | hrest
    · subst heq
      simp [tileTypeOf, List.find?_cons_of_pos, beq_iff_eq, hid]
    · have huid : u.id ≠ tid := by
        intro hu
        apply hnodup.1
        have h0mem : t0.id ∈ List.map (fun t => t.id) rest :=
          List.mem_map_of_mem (fun t => t.id) hrest
        rwa [hid, ← hu] at h0mem
      have hu : (u.id == tid) = false := by simp [beq_iff_eq, huid]
      have hfind : (u :: rest).find? (fun t => t.id == tid)
          = rest.find? (fun t => t.id == tid) :=
        List.find?_cons_of_neg _ (by simp [hu])
      simp only [tileTypeOf, hfind]
      exact ih hnodup.2 hrest

theorem removeTile_counts (ts : List Tile) (tid : Nat) (t0 : Tile)
    (hnodup : (ts.map (fun t => t.id)).Nodup)
    (hmem : t0 ∈ ts) (hid : t0.id = tid) (hnr : t0.isRemoved = false) :
    (∀ k, countKindBoard k (removeTile ts tid) + (if t0.data.tileType = k then 1 else 0)
      = countKindBoard k ts)
    ∧ getRemainingCount (removeTile ts tid) + 1 = getRemainingCount ts := by
  obtain ⟨l1, l2, hA, hB⟩ := activeKinds_markRemoved_split ts tid t0 hnodup hmem hid hnr
  constructor
  · intro k
    unfold countKindBoard removeTile
    rw [activeKinds_updateFreeTiles, hA, hB]
    simp only [List.count_append, List.count_cons, beq_iff_eq]
    split_ifs <;> omega
  · rw [getRemainingCount_eq_activeKinds_length, getRemainingCount_eq_activeKinds_length,
      show removeTile ts tid = updateFreeTiles (markRemoved ts tid) from rfl,
      activeKinds_updateFreeTiles, hA, hB]
    simp only [List.length_append, List.length_cons]
    omega

theorem activeKinds_assignTypes (ts : List Tile) :
    ∀ ks : List Nat, ks.length = (ts.filter (fun t => !t.isRemoved)).length →
      activeKinds (assignTypes ts ks) = ks := by
  induction ts with
  | nil =>
    intro ks h
    simp only [List.filter_nil, List.length_nil, List.length_eq_zero] at h
    simp [assignTypes, activeKinds, h]
  | cons t rest ih =>
    intro ks h
    cases hrm : t.isRemoved with
    | true =>
      rw [List.filter_cons_of_neg (by simp [hrm])] at h
      have ih2 := ih ks h
      simp only [assignTypes, hrm, if_true]
      simp only [activeKinds, List.filter_cons, hrm] at ih2 ⊢
      simpa using ih2
    | false =>
      rw [List.filter_cons_of_pos (by simp [hrm])] at h
      cases ks with
      | nil => simp at h
      | cons k ks2 =>
        simp only [List.length_cons] at h
        have ih2 := ih ks2 (by omega)
        simp only [assignTypes, hrm, Bool.false_eq_true, if_false]
        simp only [activeKinds, List.filter_cons, hrm] at ih2 ⊢
        simpa using ih2

theorem countKindBoard_shuffle (ts : List Tile) (r : Nat → Nat) (k : Nat) :
    countKindBoard k (shuffle ts r) = countKindBoard k ts := by
  simp only [shuffle, countKindBoard]
  rw [activeKinds_updateFreeTiles]
  rw [activeKinds_assignTypes ts _ (by rw [length_fisherYates]; simp)]
  exact count_fisherYates _ r k

theorem count_kindsOf_addTile (slots : HoldSlots) (k0 t : Nat)
    (hcan : canAddTile slots = true) :
    ∃ m, (kindsOf (addTile slots k0).slots).count t + 2 * m
      = (kindsOf slots).count t + (if k0 = t then 1 else 0) := by
  obtain ⟨i, hf⟩ := findIdx?_isNone_of_canAdd slots hcan
  have hins : insertTile slots k0 = slots.set i (some k0) := by simp [insertTile, hf]
  have hperm : List.Perm (kindsOf (slots.set i (some k0))) (k0 :: kindsOf slots) := by
    rw [← hins, insertTile_eq_place]
    exact kindsOf_place_perm slots k0 hcan
  have hcount1 : ∀ u, (kindsOf (slots.set i (some k0))).count u
      = (kindsOf slots).count u + (if k0 = u then 1 else 0) := by
    intro u
    rw [hperm.count_eq u, List.count_cons]
    simp [beq_iff_eq]
  simp only [addTile, hf]
  split
  case isTrue hm =>
    have hcntk : 2 ≤ (kindsOf (slots.set i (some k0))).count k0 := by
      rw [← countP_eq_kind_count]
      exact hm
    have hmem1 : k0 ∈ kindsOf (slots.set i (some k0)) :=
      List.count_pos_iff.mp (by omega)
    have e1 := count_kindsOf_clearFirst (slots.set i (some k0)) k0 t hmem1
    have e1k : (kindsOf (clearFirst (slots.set i (some k0)) k0)).count k0 + 1
        = (kindsOf (slots.set i (some k0))).count k0 := by
      simpa using count_kindsOf_clearFirst (slots.set i (some k0)) k0 k0 hmem1
    have hmem2 : k0 ∈ kindsOf (clearFirst (slots.set i (some k0)) k0) :=
      List.count_pos_iff.mp (by omega)
    have e2 := count_kindsOf_clearFirst (clearFirst (slots.set i (some k0)) k0) k0 t hmem2
    refine ⟨if k0 = t then 1 else 0, ?_⟩
    show (kindsOf (handleMatch (slots.set i (some k0)) k0)).count t
        + 2 * (if k0 = t then 1 else 0)
      = (kindsOf slots).count t + (if k0 = t then 1 else 0)
    have heq : kindsOf (handleMatch (slots.set i (some k0)) k0)
        = kindsOf (clearFirst (clearFirst (slots.set i (some k0)) k0) k0) := by
      simp [handleMatch, kindsOf_compact]
    rw [heq]
    have h3 := hcount1 t
    split_ifs at e1 e2 h3 ⊢ <;> omega
  case isFalse hm =>
    refine ⟨0, ?_⟩
    show (kindsOf (slots.set i (some k0))).count t + 2 * 0
      = (kindsOf slots).count t + (if k0 = t then 1 else 0)
    simpa using hcount1 t

theorem onTileSelected_unfold (s : GameState) (tid : Nat) (now : Int)
    (hov : s.overlayVisible = false) (hcan : canAddTile s.hold = true) :
    (onTileSelected s tid now).1.tiles = removeTile s.tiles tid
    ∧ (onTileSelected s tid now).1.hold
        = (addTile s.hold (tileTypeOf s.tiles tid)).slots
    ∧ (onTileSelected s tid now).2
        = (((getRemainingCount (removeTile s.tiles tid) == 0)
            && (holdTileCount s.hold == 0))
          || ((getRemainingCount (removeTile s.tiles tid) == 0)
            && (holdTileCount (addTile s.hold (tileTypeOf s.tiles tid)).slots == 0))) := by
  simp only [onTileSelected, hov, hcan, Bool.not_true, Bool.false_eq_true, if_false]
  refine ⟨?_, ?_, trivial⟩
  · split <;> split <;> split <;> simp [onHoldMatch]
  · split <;> split <;> split <;> simp [onHoldMatch]

/-- Claim C6 (amended): board-only per-kind evenness fails (see the
counterexample), but the combined invariant holds: for every kind, the count
of non-removed board tiles of that kind plus the count of occupied hold
slots of that kind stays even across a completed turn, and a shuffle
preserves each kind's board count exactly (hence also its parity). -/
theorem combined_kind_parity_invariant (s : GameState) (tid : Nat) (now : Int)
    (k : Nat) (r : Nat → Nat)
    (hnodup : (s.tiles.map (fun t => t.id)).Nodup)
    (hmem : ∃ t0 ∈ s.tiles, t0.id = tid ∧ t0.isRemoved = false) :
    (Even (countKindBoard k s.tiles + (kindsOf s.hold).count k) →
      Even (countKindBoard k (onTileSelected s tid now).1.tiles
        + (kindsOf (onTileSelected s tid now).1.hold).count k))
    ∧ countKindBoard k (shuffleBoard s r).tiles = countKindBoard k s.tiles := by
  refine ⟨?_, countKindBoard_shuffle s.tiles r k⟩
  intro heven
  by_cases hov : s.overlayVisible = true
  · simpa [onTileSelected, hov] using heven
  · have hov' : s.overlayVisible = false := by
      revert hov; cases s.overlayVisible <;> simp
    by_cases hcan : canAddTile s.hold = true
    · obtain ⟨t0, hm0, hid0, hnr0⟩ := hmem
      obtain ⟨htiles, hhold, -⟩ := onTileSelected_unfold s tid now hov' hcan
      rw [htiles, hhold]
      have hbd := (removeTile_counts s.tiles tid t0 hnodup hm0 hid0 hnr0).1 k
      have hty : tileTypeOf s.tiles tid = t0.data.tileType :=
        tileTypeOf_eq s.tiles tid t0 hnodup hm0 hid0
      obtain ⟨m, hhd⟩ := count_kindsOf_addTile s.hold (tileTypeOf s.tiles tid) k hcan
      rw [← hty] at hbd
      rw [Nat.even_iff] at heven ⊢
      split_ifs at hbd hhd <;> omega
    · have hcan' : canAddTile s.hold = false := by
        revert hcan; cases canAddTile s.hold <;> simp
      simpa [onTileSelected, hcan'] using heven

/-- Witness for `combined_kind_parity_invariant`: completing the game from
`lastTileState` (one kind-0 tile on the board, one in the hold). -/
theorem combined_kind_parity_invariant_witness :
    Even (countKindBoard 0 lastTileState.tiles + (kindsOf lastTileState.hold).count 0)
    ∧ Even (countKindBoard 0 (onTileSelected lastTileState 0 0).1.tiles
        + (kindsOf (onTileSelected lastTileState 0 0).1.hold).count 0) := by
  have he : Even (countKindBoard 0 lastTileState.tiles
      + (kindsOf lastTileState.hold).count 0) := by
    rw [Nat.even_iff]; decide
  have h := combined_kind_parity_invariant lastTileState 0 0 0 (fun _ => 0)
    (by decide) (by decide)
  exact ⟨he, h.1 he⟩

/-- Claim C1: for a turn taken from a reachable state (board-plus-hold tile
count even — true of every reachable state since a removal adds one tile to
the hold and a match removes two — with a valid selected tile and the
overlay down), the win screen is signalled iff, after the completed turn,
the board has zero non-removed tiles and the hold has zero occupied slots;
in particular a turn ending with an empty board but a non-empty hold is not
signalled as a win. -/
theorem win_signal_iff_board_and_hold_empty (s : GameState) (tid : Nat) (now : Int)
    (hov : s.overlayVisible = false)
    (hcan : canAddTile s.hold = true)
    (hnodup : (s.tiles.map (fun t => t.id)).Nodup)
    (hmem : ∃ t0 ∈ s.tiles, t0.id = tid ∧ t0.isRemoved = false)
    (hpar : (getRemainingCount s.tiles + holdTileCount s.hold) % 2 = 0) :
    ((onTileSelected s tid now).2 = true ↔
      (getRemainingCount (onTileSelected s tid now).1.tiles = 0
        ∧ holdTileCount (onTileSelected s tid now).1.hold = 0)) := by
  obtain ⟨t0, hm0, hid0, hnr0⟩ := hmem
  obtain ⟨htiles, hhold, hwin⟩ := onTileSelected_unfold s tid now hov hcan
  have hrc := (removeTile_counts s.tiles tid t0 hnodup hm0 hid0 hnr0).2
  rw [htiles, hhold, hwin]
  simp only [Bool.or_eq_true, Bool.and_eq_true, beq_iff_eq]
  constructor
  · rintro (⟨h0, h0c⟩ | h)
    · omega
    · exact h
  · exact fun h => Or.inr h

/-- Witness for `win_signal_iff_board_and_hold_empty`: selecting the last
board tile from `lastTileState` matches the held tile and wins. -/
theorem win_signal_iff_board_and_hold_empty_witness :
    (onTileSelected lastTileState 0 0).2 = true := by
  have h := win_signal_iff_board_and_hold_empty lastTileState 0 0 (by decide)
    (by decide) (by decide) (by decide) (by decide)
  exact h.mpr ⟨by decide, by decide⟩

end MomsMahjong
